import Mathlib

/-!
Verification of the multi-scene timing and rendering engine of an
AI short-video creator backend: scene planning (`calculate_scene_timing`),
audio-duration probing (`get_audio_duration`), the renderer fallback chain
(`create_multi_scene_video` and its two strategies), caption timing
correction (`validate_and_correct_timing`) and SRT timestamp conversion
(`format_srt_time` / `parse_timestamp`).  All times are modelled as exact
rationals; external tool invocations are modelled by an explicit
environment of their possible outcomes.
-/

namespace VideoCreator

/-- A planned scene: one image shown for `duration` seconds starting at
`start_time`.  Mirrors the dictionaries produced by
`calculate_scene_timing` in `src/services/Media/media_utils.py`. -/
structure Scene where
  image : String
  duration : ℚ
  start_time : ℚ
deriving DecidableEq, Repr

/-- The scene construction loop of `calculate_scene_timing`
(`media_utils.py` lines 677-712): walk the images in order; the last image
receives the remaining time `audio - current`; every duration is clamped
up to at least 0.5s; the running time advances by the duration plus the
transition when another scene follows and the transition is positive; the
loop stops early as soon as the running time reaches `audio`. -/
def sceneLoop (audio scene_duration transition_duration : ℚ)
    (imgs : List String) (current : ℚ) : List Scene :=
  match imgs with
  | [] => []
  | image :: rest =>
    let effective0 := if rest.isEmpty then audio - current else scene_duration
    let effective := if effective0 < 1/2 then 1/2 else effective0
    let next := current + effective +
      (if rest.isEmpty = false ∧ transition_duration > 0 then transition_duration
       else 0)
    ⟨image, effective, current⟩ ::
      (if next ≥ audio then []
       else sceneLoop audio scene_duration transition_duration rest next)
termination_by structural imgs

/-- `calculate_scene_timing` (`media_utils.py` lines 616-728): equal
distribution of the audio over the images; the transition budget is
dropped entirely when it leaves no time or less than 1s per image.
`min_duration` and `max_duration` are accepted but never used to size a
scene, exactly as in the source. -/
def calculate_scene_timing (image_paths : List String)
    (audio_duration min_duration max_duration transition_duration : ℚ) :
    List Scene :=
  if image_paths.isEmpty ∨ audio_duration ≤ 0 then []
  else
    let n : ℚ := image_paths.length
    let total_transition_time := max 0 ((n - 1) * transition_duration)
    let available_scene_time := audio_duration - total_transition_time
    if available_scene_time ≤ 0 ∨ available_scene_time < n * 1 then
      sceneLoop audio_duration (audio_duration / n) 0 image_paths 0
    else
      sceneLoop audio_duration (available_scene_time / n) transition_duration
        image_paths 0

/-- The condition under which `calculate_scene_timing` keeps the requested
transitions: the audio minus the total transition budget stays positive
and leaves at least 1s per image (`media_utils.py` lines 643-652). -/
def transitionsKept (image_paths : List String)
    (audio_duration transition_duration : ℚ) : Prop :=
  let n : ℚ := image_paths.length
  let available := audio_duration - max 0 ((n - 1) * transition_duration)
  ¬(available ≤ 0 ∨ available < n * 1)

instance (image_paths : List String) (audio_duration transition_duration : ℚ) :
    Decidable (transitionsKept image_paths audio_duration transition_duration) :=
  by unfold transitionsKept; infer_instance

/-- A caption segment as handled by `validate_and_correct_timing` in
`src/services/subtitle_service.py`: a start time, an end time and the
caption text. -/
structure Seg where
  start_time : ℚ
  end_time : ℚ
  text : String
deriving DecidableEq, Repr

/-- The per-segment end-time correction of `validate_and_correct_timing`
(`subtitle_service.py` lines 801-815): extend the end to guarantee a
minimum duration of 0.5s, shrink it to keep a 0.1s gap before the next
segment when there is one, then clamp it to the audio duration. -/
def correctEnd (actual_audio_duration start_time end_time : ℚ)
    (next_start : Option ℚ) : ℚ :=
  let e1 := if end_time - start_time < 1/2 then start_time + 1/2 else end_time
  let e2 := match next_start with
    | some ns => if e1 > ns - 1/10 then ns - 1/10 else e1
    | none => e1
  if e2 > actual_audio_duration then actual_audio_duration else e2

/-- The forward correction pass of `validate_and_correct_timing`
(`subtitle_service.py` lines 797-822): correct each segment's end time
against the start of its successor in the input list, and drop the
segment when the corrected end does not exceed its start. -/
def correctPass (actual_audio_duration : ℚ) (segments : List Seg) :
    List Seg :=
  match segments with
  | [] => []
  | segment :: rest =>
    let corrected_end := correctEnd actual_audio_duration segment.start_time
      segment.end_time (rest.head?.map Seg.start_time)
    if segment.start_time < corrected_end then
      ⟨segment.start_time, corrected_end, segment.text⟩ ::
        correctPass actual_audio_duration rest
    else
      correctPass actual_audio_duration rest
termination_by structural segments

/-- Variant of the forward pass that corrects every end time but drops
nothing; `correctPass` is its filtering by `start_time < end_time`. -/
def correctAll (actual_audio_duration : ℚ) (segments : List Seg) :
    List Seg :=
  match segments with
  | [] => []
  | segment :: rest =>
    ⟨segment.start_time,
     correctEnd actual_audio_duration segment.start_time segment.end_time
       (rest.head?.map Seg.start_time),
     segment.text⟩ :: correctAll actual_audio_duration rest
termination_by structural segments

/-- `max(segment.end_time for segment in segments)` as computed at
`subtitle_service.py` line 781 (the variable named `last_end_time`); 0 on
the empty list, which the source never reaches because of its emptiness
guard. -/
def lastEndTime (segments : List Seg) : ℚ :=
  match segments with
  | [] => 0
  | s :: rest => (rest.map Seg.end_time).foldl max s.end_time

/-- The uniform scaling step of `validate_and_correct_timing`
(`subtitle_service.py` lines 784-794): when the largest end time exceeds
`audio * 1.1`, multiply every start and end time by
`audio / last_end_time`; otherwise leave the segments unchanged. -/
def scaledSegments (segments : List Seg) (actual_audio_duration : ℚ) :
    List Seg :=
  let last_end_time := lastEndTime segments
  if last_end_time > actual_audio_duration * (11/10) then
    let scale_factor := actual_audio_duration / last_end_time
    segments.map fun s =>
      ⟨s.start_time * scale_factor, s.end_time * scale_factor, s.text⟩
  else segments

/-- `validate_and_correct_timing` (`subtitle_service.py` lines 763-824):
return the input unchanged when it is empty, otherwise apply the optional
uniform scaling and then the forward correction pass. -/
def validate_and_correct_timing (segments : List Seg)
    (actual_audio_duration : ℚ) : List Seg :=
  if segments.isEmpty then segments
  else correctPass actual_audio_duration
    (scaledSegments segments actual_audio_duration)

/-- Outcome of one guarded subprocess invocation inside
`get_audio_duration`.  The source wraps each invocation in a `try` whose
`except` clause names specific exception types only; an exception of any
other type (for instance `FileNotFoundError` or `PermissionError` raised
while launching the process) is not absorbed and escapes the function. -/
inductive RunOutcome (α : Type) where
  /-- The invocation ran and its output was processed as in the source;
  `v` is the processed output. -/
  | completed (v : α)
  /-- The invocation raised one of the exception types named in the
  tier's `except` clause; the tier is skipped and the next one tried. -/
  | caught
  /-- The invocation raised an exception type the `except` clause does
  not name; the exception propagates out of `get_audio_duration`. -/
  | uncaught
deriving DecidableEq, Repr

/-- One possible world of outcomes of the filesystem checks, ffmpeg
binary resolution and tool invocations performed by `get_audio_duration`
(`media_utils.py` lines 506-613).  The calls to
`imageio_ffmpeg.get_ffmpeg_exe()` (lines 515, 520, 545 and 566) happen
outside every `try`, so a `false` outcome means that call raises and the
exception escapes the function; the repeated `os.path.exists` check of
the resolved ffprobe path (lines 518 and 525) is assumed stable within
one invocation. -/
structure ProbeEnv where
  /-- Outcome of `os.path.exists(audio_path)` (line 508). -/
  file_exists : Bool
  /-- Whether `get_ffmpeg_exe()` at line 515 returns rather than
  raises. -/
  ffmpeg_exe1 : Bool
  /-- Whether `get_ffmpeg_exe()` at line 520 returns; that call is only
  reached when the primary ffprobe path does not exist. -/
  ffmpeg_exe2 : Bool
  /-- Whether `get_ffmpeg_exe()` at line 545 returns. -/
  ffmpeg_exe3 : Bool
  /-- Whether `get_ffmpeg_exe()` at line 566 returns. -/
  ffmpeg_exe4 : Bool
  /-- Outcome of `os.path.exists` on the primary ffprobe path (lines 518
  and 525). -/
  ffprobe_primary_found : Bool
  /-- Outcome of `os.path.exists` on the alternative `ffprobe.exe` path
  (line 522). -/
  ffprobe_alt_found : Bool
  /-- The ffprobe invocation (lines 527-538): `completed d` when the
  process succeeds within the timeout and `float(stdout)` parses as `d`;
  `caught` covers `TimeoutExpired`, `CalledProcessError` and
  `ValueError` (line 539). -/
  ffprobe_run : RunOutcome ℚ
  /-- The info-only ffmpeg invocation (lines 546-561): `completed x` when
  the process returns within the timeout, `x` being the optional
  `Duration:` regex match on its stderr; `caught` covers `TimeoutExpired`
  and `CalledProcessError` (line 562). -/
  info_run : RunOutcome (Option (ℕ × ℕ × ℚ))
  /-- The full-decode ffmpeg invocation (lines 567-595): `completed`
  carries the optional `Duration:` match and the list of `time=` matches
  on its stderr; `caught` covers `TimeoutExpired` and
  `CalledProcessError` (line 596). -/
  full_run : RunOutcome (Option (ℕ × ℕ × ℚ) × List (ℕ × ℕ × ℚ))
  /-- Outcome of `os.path.getsize(audio_path)` (line 601); `none` when it
  raises, which the bare `except Exception` at line 608 absorbs. -/
  file_size : Option ℕ

/-- `int(h) * 3600 + int(m) * 60 + float(s)` applied to a regex match. -/
def hmsToSeconds (x : ℕ × ℕ × ℚ) : ℚ :=
  (x.1 : ℚ) * 3600 + (x.2.1 : ℚ) * 60 + x.2.2

/-- Method 3 and the final fallback of `get_audio_duration`
(`media_utils.py` lines 599-613): estimate the duration from the file
size at an assumed 128kbps, clamped to [10, 300]; 30.0 when even
`getsize` fails. -/
def sizeTier (env : ProbeEnv) : Except String ℚ :=
  match env.file_size with
  | some file_size =>
    Except.ok (max 10 (min ((file_size : ℚ) / (128 * 1024 / 8)) 300))
  | none => Except.ok 30

/-- The `time=` fallback inside Method 2 (`media_utils.py` lines
584-592): take the last `time=` match when there is one, otherwise fall
through to the file-size estimate. -/
def timePatternTier (times : List (ℕ × ℕ × ℚ)) (env : ProbeEnv) :
    Except String ℚ :=
  match times.getLast? with
  | some x => Except.ok (hmsToSeconds x)
  | none => sizeTier env

/-- Method 2 of `get_audio_duration` (`media_utils.py` lines 565-597):
the full-decode ffmpeg run, preferring the `Duration:` line and falling
back to the last `time=` marker; a raising `get_ffmpeg_exe` call (line
566) or an invocation failure outside the `except` list escapes. -/
def fullDecodeTier (env : ProbeEnv) : Except String ℚ :=
  if env.ffmpeg_exe4 = false then
    Except.error "RuntimeError raised by get_ffmpeg_exe"
  else
    match env.full_run with
    | RunOutcome.completed (some x, _) => Except.ok (hmsToSeconds x)
    | RunOutcome.completed (none, times) => timePatternTier times env
    | RunOutcome.caught => sizeTier env
    | RunOutcome.uncaught =>
      Except.error "uncaught exception from the full-decode invocation"

/-- Method 1.5 of `get_audio_duration` (`media_utils.py` lines 544-563):
the info-only ffmpeg run parsed for a `Duration:` line; a raising
`get_ffmpeg_exe` call (line 545) or an invocation failure outside the
`except` list escapes. -/
def infoTier (env : ProbeEnv) : Except String ℚ :=
  if env.ffmpeg_exe3 = false then
    Except.error "RuntimeError raised by get_ffmpeg_exe"
  else
    match env.info_run with
    | RunOutcome.completed (some x) => Except.ok (hmsToSeconds x)
    | RunOutcome.completed none => fullDecodeTier env
    | RunOutcome.caught => fullDecodeTier env
    | RunOutcome.uncaught =>
      Except.error "uncaught exception from the info invocation"

/-- `get_audio_duration` (`media_utils.py` lines 506-613) over a world of
tool outcomes, as a fallible function: 30.0 for a missing file (returned
before any tool is touched); otherwise the ffprobe binary is resolved
(raising when `get_ffmpeg_exe` fails, lines 515/520) and, when its path
exists, invoked; every caught invocation failure falls through to the
next tier (info-mode ffmpeg, full-decode ffmpeg, file-size estimate,
constant 30.0), while an invocation failure of a type outside the tier's
`except` clause escapes as an error. -/
def get_audio_duration (env : ProbeEnv) : Except String ℚ :=
  if env.file_exists = false then Except.ok 30
  else if env.ffmpeg_exe1 = false then
    Except.error "RuntimeError raised by get_ffmpeg_exe"
  else if env.ffprobe_primary_found = false ∧ env.ffmpeg_exe2 = false then
    Except.error "RuntimeError raised by get_ffmpeg_exe"
  else if (env.ffprobe_primary_found || env.ffprobe_alt_found) = true then
    match env.ffprobe_run with
    | RunOutcome.completed duration => Except.ok duration
    | RunOutcome.caught => infoTier env
    | RunOutcome.uncaught =>
      Except.error "uncaught exception from the ffprobe invocation"
  else infoTier env

/-- One possible world of outcomes of the ffmpeg invocations performed by
the renderer (`media_utils.py` lines 427-913). -/
structure RenderEnv where
  /-- The duration returned by `get_audio_duration` for the audio asset. -/
  audio_duration : ℚ
  /-- Whether the single crossfade ffmpeg command succeeds. -/
  crossfade_ok : Bool
  /-- Outcome of `os.path.exists` on each scene image. -/
  image_exists : String → Bool
  /-- Whether the per-scene clip render command for scene index `i`
  succeeds. -/
  clip_ok : ℕ → Bool
  /-- Whether the final concat-plus-audio command succeeds and its output
  file exists. -/
  concat_ok : Bool
  /-- Whether the single-scene ffmpeg command of `create_video`
  succeeds. -/
  single_ok : Bool
  /-- Outcome of the `os.path.exists(result)` check in
  `create_multi_scene_video`. -/
  multi_output_exists : Bool

/-- `create_video` (`media_utils.py` lines 300-333): render one image over
the whole audio; any failure is caught and turned into `None`. -/
def create_video (env : RenderEnv)
    (image_path audio_path output_path : String) : Option String :=
  if env.single_ok then some output_path else none

/-- The indices of the scenes for which `create_video_simple_concat`
produces a clip (`media_utils.py` lines 806-837): a scene is skipped when
its image does not exist or its ffmpeg invocation fails. -/
def sceneVideos (env : RenderEnv) (scene_plan : List Scene) : List ℕ :=
  (scene_plan.enum.filter fun p =>
    env.image_exists p.2.image && env.clip_ok p.1).map Prod.fst

/-- `create_video_simple_concat` (`media_utils.py` lines 796-912): raises
(`Except.error`) when no scene clip was produced or the final concat
command fails, otherwise returns the output path. -/
def create_video_simple_concat (env : RenderEnv) (scene_plan : List Scene)
    (audio_path output_path : String) : Except String String :=
  if (sceneVideos env scene_plan).isEmpty then
    Except.error "No scene videos were created successfully"
  else if env.concat_ok then Except.ok output_path
  else Except.error "concat command failed"

/-- `create_video_with_transitions` (`media_utils.py` lines 731-793): on
any crossfade failure fall back to `create_video_simple_concat`, whose own
exception propagates. -/
def create_video_with_transitions (env : RenderEnv) (scene_plan : List Scene)
    (audio_path output_path : String) : Except String String :=
  if env.crossfade_ok then Except.ok output_path
  else create_video_simple_concat env scene_plan audio_path output_path

/-- `create_multi_scene_video` (`media_utils.py` lines 427-503): probe the
audio, build the scene plan, render with transitions when they are enabled
and more than one scene exists (simple concatenation otherwise), and on
any failure fall back to a single-scene `create_video` on the first image,
or `none` when there are no images. -/
def create_multi_scene_video (env : RenderEnv) (image_paths : List String)
    (audio_path output_path : String)
    (min_scene_duration max_scene_duration transition_duration : ℚ)
    (enable_transitions : Bool) : Option String :=
  let fallback : Option String :=
    match image_paths with
    | [] => none
    | image :: _ => create_video env image audio_path output_path
  if env.audio_duration ≤ 0 then fallback
  else
    let scene_plan := calculate_scene_timing image_paths env.audio_duration
      min_scene_duration max_scene_duration
      (if enable_transitions then transition_duration else 0)
    if scene_plan.isEmpty then fallback
    else
      let result :=
        if enable_transitions ∧ scene_plan.length > 1 then
          create_video_with_transitions env scene_plan audio_path output_path
        else
          create_video_simple_concat env scene_plan audio_path output_path
      match result with
      | Except.ok p => if env.multi_output_exists then some p else fallback
      | Except.error _ => fallback

/-- Python `a % b`: the remainder with the sign of `b` (here used with
positive `b` only, where it equals `a - b * ⌊a / b⌋`). -/
def pymod (a b : ℚ) : ℚ := a - b * ⌊a / b⌋

/-- The numeric fields of an SRT timestamp string `HH:MM:SS,mmm`.  The
string assembly performed by the f-string in `format_srt_time` and the
`split` calls in `parse_timestamp` are modelled by this structure: the
four zero-padded decimal fields determine the string and vice versa. -/
structure SrtTime where
  hours : ℤ
  minutes : ℤ
  secs : ℤ
  milliseconds : ℤ
deriving DecidableEq, Repr

/-- `format_srt_time` (`subtitle_service.py` lines 754-761):
`int(seconds // 3600)`, `int((seconds % 3600) // 60)`, `int(seconds % 60)`
and `int((seconds % 1) * 1000)`.  Python `//` is floor division and `%`
returns a value in `[0, b)`, so `int(...)` truncation coincides with the
floor on every field. -/
def format_srt_time (seconds : ℚ) : SrtTime :=
  ⟨⌊seconds / 3600⌋, ⌊pymod seconds 3600 / 60⌋, ⌊pymod seconds 60⌋,
   ⌊pymod seconds 1 * 1000⌋⟩

/-- `parse_timestamp` (`subtitle_service.py` lines 301-318):
`h * 3600 + m * 60 + s + ms / 1000` on the split fields. -/
def parse_timestamp (t : SrtTime) : ℚ :=
  (t.hours : ℚ) * 3600 + (t.minutes : ℚ) * 60 + (t.secs : ℚ) +
    (t.milliseconds : ℚ) / 1000

/-- Projection of a caption segment to the data the correction pass never
touches: its start time and its text. -/
def segProj (s : Seg) : ℚ × String := (s.start_time, s.text)

lemma sceneLoop_nil (a s t c : ℚ) : sceneLoop a s t [] c = [] := rfl

lemma sceneLoop_single (a s t : ℚ) (img : String) (c : ℚ)
    (h : ¬(a - c < 1/2)) : sceneLoop a s t [img] c = [⟨img, a - c, c⟩] := by
  show (let effective0 := if ([] : List String).isEmpty then a - c else s
    let effective := if effective0 < 1/2 then 1/2 else effective0
    let next := c + effective +
      (if ([] : List String).isEmpty = false ∧ t > 0 then t else 0)
    (⟨img, effective, c⟩ : Scene) ::
      (if next ≥ a then [] else sceneLoop a s t [] next)) = _
  simp only [List.isEmpty_nil, if_true, sceneLoop_nil, ite_self]
  rw [if_neg h]

lemma sceneLoop_cons_cons (a s t : ℚ) (img r : String) (rs : List String)
    (c : ℚ) (hs : ¬(s < 1/2))
    (hlt : c + s + (if 0 < t then t else 0) < a) :
    sceneLoop a s t (img :: r :: rs) c =
      ⟨img, s, c⟩ :: sceneLoop a s t (r :: rs)
        (c + s + (if 0 < t then t else 0)) := by
  show (let effective0 := if (r :: rs).isEmpty then a - c else s
    let effective := if effective0 < 1/2 then 1/2 else effective0
    let next := c + effective +
      (if (r :: rs).isEmpty = false ∧ t > 0 then t else 0)
    (⟨img, effective, c⟩ : Scene) ::
      (if next ≥ a then [] else sceneLoop a s t (r :: rs) next)) = _
  simp only [List.isEmpty_cons, Bool.false_eq_true, if_false, eq_self_iff_true,
    true_and]
  rw [if_neg hs]
  rw [if_neg (not_le.mpr hlt)]

lemma getLast?_cons_of_ne_nil {α : Type} (a : α) {l : List α} (h : l ≠ []) :
    (a :: l).getLast? = l.getLast? := by
  cases l with
  | nil => exact absurd rfl h
  | cons b t => exact List.getLast?_cons_cons

lemma ne_nil_of_getLast?_eq_some {α : Type} {l : List α} {x : α}
    (h : l.getLast? = some x) : l ≠ [] := by
  intro hnil
  rw [hnil] at h
  simp at h

/-- Core invariant of the scene construction loop: when the uniform scene
duration is at least the 0.5s clamp and the remaining time budget matches
the remaining scenes and transitions exactly, the loop emits one scene per
image with the uniform duration and the last scene ends exactly at the
audio duration; in particular the early stop never triggers. -/
lemma sceneLoop_spec (audio scene_duration transition_duration : ℚ)
    (hs : 1/2 ≤ scene_duration) :
    ∀ (imgs : List String) (current : ℚ), imgs ≠ [] →
      current + imgs.length * scene_duration +
        ((imgs.length : ℚ) - 1) *
          (if 0 < transition_duration then transition_duration else 0) = audio →
      (sceneLoop audio scene_duration transition_duration imgs current).map
          Scene.image = imgs ∧
      ((sceneLoop audio scene_duration transition_duration imgs current).map
          Scene.duration).sum = imgs.length * scene_duration ∧
      ∃ sc, (sceneLoop audio scene_duration transition_duration imgs
          current).getLast? = some sc ∧
        sc.start_time + sc.duration = audio := by
  intro imgs
  induction imgs with
  | nil => intro current h; exact absurd rfl h
  | cons img rest ih =>
    intro current _ hsum
    have hT : 0 ≤ (if 0 < transition_duration then transition_duration else 0) := by
      split_ifs with h
      · exact le_of_lt h
      · exact le_refl 0
    cases rest with
    | nil =>
      push_cast [List.length_cons, List.length_nil] at hsum
      ring_nf at hsum
      have hcur : audio - current = scene_duration := by linarith
      have hnotlt : ¬(audio - current < 1/2) := by rw [hcur]; linarith
      rw [sceneLoop_single audio scene_duration transition_duration img
        current hnotlt]
      refine ⟨by simp, ?_, ⟨img, audio - current, current⟩, by simp, by simp⟩
      simp [hcur]
    | cons r rs =>
      set T := (if 0 < transition_duration then transition_duration else 0)
        with hTdef
      push_cast [List.length_cons, List.length_nil] at hsum
      have hpos : (0 : ℚ) <
          ((rs.length : ℚ) + 1) * scene_duration + (rs.length : ℚ) * T := by
        have h1 : (0 : ℚ) ≤ (rs.length : ℚ) := Nat.cast_nonneg _
        nlinarith
      have hlt : current + scene_duration + T < audio := by nlinarith
      rw [sceneLoop_cons_cons audio scene_duration transition_duration img r rs
        current (not_lt.mpr hs) (hTdef ▸ hlt)]
      have hrecsum : (current + scene_duration + T) +
          ((r :: rs).length : ℚ) * scene_duration +
          (((r :: rs).length : ℚ) - 1) * T = audio := by
        push_cast [List.length_cons]
        linarith
      obtain ⟨hmap, hsum2, sc, hlast, hend⟩ :=
        ih (current + scene_duration + T) (List.cons_ne_nil r rs) hrecsum
      refine ⟨by simp [hTdef ▸ hmap], ?_, sc, ?_, hend⟩
      · rw [List.map_cons, List.sum_cons, ← hTdef, hsum2]
        push_cast [List.length_cons]
        ring
      · rw [getLast?_cons_of_ne_nil _
          (ne_nil_of_getLast?_eq_some (hTdef ▸ hlast))]
        exact hTdef ▸ hlast


lemma calculate_scene_timing_guard_false (image_paths : List String)
    (audio_duration : ℚ) (h1 : image_paths ≠ []) (h2 : 0 < audio_duration) :
    ¬(image_paths.isEmpty = true ∨ audio_duration ≤ 0) := by
  push_neg
  exact ⟨by simp [List.isEmpty_iff, h1], h2⟩

lemma calculate_scene_timing_eq_kept (image_paths : List String)
    (audio_duration min_duration max_duration transition_duration : ℚ)
    (h1 : image_paths ≠ []) (h2 : 0 < audio_duration)
    (hkept : transitionsKept image_paths audio_duration transition_duration) :
    calculate_scene_timing image_paths audio_duration min_duration
      max_duration transition_duration =
    sceneLoop audio_duration
      ((audio_duration - max 0 (((image_paths.length : ℚ) - 1) *
        transition_duration)) / (image_paths.length : ℚ))
      transition_duration image_paths 0 := by
  simp only [calculate_scene_timing]
  rw [if_neg (calculate_scene_timing_guard_false image_paths audio_duration h1 h2)]
  simp only [transitionsKept] at hkept
  rw [if_neg hkept]

lemma calculate_scene_timing_eq_disabled (image_paths : List String)
    (audio_duration min_duration max_duration transition_duration : ℚ)
    (h1 : image_paths ≠ []) (h2 : 0 < audio_duration)
    (hkept : ¬transitionsKept image_paths audio_duration transition_duration) :
    calculate_scene_timing image_paths audio_duration min_duration
      max_duration transition_duration =
    sceneLoop audio_duration (audio_duration / (image_paths.length : ℚ)) 0
      image_paths 0 := by
  simp only [calculate_scene_timing]
  rw [if_neg (calculate_scene_timing_guard_false image_paths audio_duration h1 h2)]
  simp only [transitionsKept, not_not] at hkept
  rw [if_pos hkept]

/-- Combined behaviour of `calculate_scene_timing` when the equal share of
every image is at least the 0.5s clamp: one scene per image in order, the
total of the durations, and the exact end of the last scene. -/
lemma calculate_scene_timing_spec (image_paths : List String)
    (audio_duration min_duration max_duration transition_duration : ℚ)
    (h1 : image_paths ≠ []) (h2 : 0 < audio_duration)
    (h3 : (image_paths.length : ℚ) * (1/2) ≤ audio_duration) :
    (calculate_scene_timing image_paths audio_duration min_duration
        max_duration transition_duration).map Scene.image = image_paths ∧
    ((calculate_scene_timing image_paths audio_duration min_duration
        max_duration transition_duration).map Scene.duration).sum =
      (if transitionsKept image_paths audio_duration transition_duration then
        audio_duration - max 0 (((image_paths.length : ℚ) - 1) *
          transition_duration)
       else audio_duration) ∧
    ∃ sc, (calculate_scene_timing image_paths audio_duration min_duration
        max_duration transition_duration).getLast? = some sc ∧
      sc.start_time + sc.duration = audio_duration := by
  have hn1 : (1 : ℚ) ≤ (image_paths.length : ℚ) := by
    have : 1 ≤ image_paths.length := List.length_pos.mpr h1
    exact_mod_cast this
  have hn0 : (image_paths.length : ℚ) ≠ 0 := by linarith
  by_cases hkept : transitionsKept image_paths audio_duration transition_duration
  · rw [calculate_scene_timing_eq_kept image_paths audio_duration min_duration
      max_duration transition_duration h1 h2 hkept, if_pos hkept]
    set n : ℚ := (image_paths.length : ℚ) with hn
    set available : ℚ :=
      audio_duration - max 0 ((n - 1) * transition_duration) with hav
    have havail : n * 1 ≤ available := by
      simp only [transitionsKept, not_or, not_le, not_lt] at hkept
      exact hkept.2
    have hs : 1/2 ≤ available / n := by
      rw [le_div_iff₀ (by linarith : (0:ℚ) < n)]
      nlinarith
    have hmax : max 0 ((n - 1) * transition_duration) =
        (n - 1) * (if 0 < transition_duration then transition_duration else 0) := by
      split_ifs with ht
      · exact max_eq_right (by nlinarith)
      · push_neg at ht
        rw [mul_zero]
        exact max_eq_left (by nlinarith)
    have hinv : (0 : ℚ) + n * (available / n) + (n - 1) *
        (if 0 < transition_duration then transition_duration else 0) =
        audio_duration := by
      rw [mul_div_cancel₀ available hn0]
      rw [hav, ← hmax]
      ring
    obtain ⟨hmap, hsum, hlast⟩ := sceneLoop_spec audio_duration (available / n)
      transition_duration hs image_paths 0 h1 hinv
    refine ⟨hmap, ?_, hlast⟩
    rw [hsum, mul_div_cancel₀ available hn0]
  · rw [calculate_scene_timing_eq_disabled image_paths audio_duration
      min_duration max_duration transition_duration h1 h2 hkept, if_neg hkept]
    set n : ℚ := (image_paths.length : ℚ) with hn
    have hs : 1/2 ≤ audio_duration / n := by
      rw [le_div_iff₀ (by linarith : (0:ℚ) < n)]
      linarith
    have hinv : (0 : ℚ) + n * (audio_duration / n) + (n - 1) *
        (if (0:ℚ) < 0 then (0:ℚ) else 0) = audio_duration := by
      rw [mul_div_cancel₀ audio_duration hn0]
      simp
    obtain ⟨hmap, hsum, hlast⟩ := sceneLoop_spec audio_duration
      (audio_duration / n) 0 hs image_paths 0 h1 hinv
    refine ⟨hmap, ?_, hlast⟩
    rw [hsum, mul_div_cancel₀ audio_duration hn0]


/-- C1 (amended): for a non-empty image list with `audio_duration > 0` and
`audio_duration ≥ 0.5 * len(images)`, the scene plan contains exactly one
scene per input image, in input order, with no image repeated and none
omitted; in particular its length is `len(images)`. -/
theorem c1_one_scene_per_image (image_paths : List String)
    (audio_duration min_duration max_duration transition_duration : ℚ)
    (h1 : image_paths ≠ []) (h2 : 0 < audio_duration)
    (h3 : (image_paths.length : ℚ) * (1/2) ≤ audio_duration) :
    (calculate_scene_timing image_paths audio_duration min_duration
        max_duration transition_duration).map Scene.image = image_paths ∧
    (calculate_scene_timing image_paths audio_duration min_duration
        max_duration transition_duration).length = image_paths.length := by
  obtain ⟨hmap, _, _⟩ := calculate_scene_timing_spec image_paths audio_duration
    min_duration max_duration transition_duration h1 h2 h3
  refine ⟨hmap, ?_⟩
  have hlen := congrArg List.length hmap
  rw [List.length_map] at hlen
  exact hlen

/-- Witness for C1: two images over three seconds of audio. -/
theorem c1_one_scene_per_image_witness :
    (["x", "y"] : List String) ≠ [] ∧ (0:ℚ) < 3 ∧
    (((["x", "y"] : List String).length : ℚ)) * (1/2) ≤ 3 ∧
    (calculate_scene_timing ["x", "y"] 3 3 8 (1/2)).map Scene.image =
      ["x", "y"] ∧
    (calculate_scene_timing ["x", "y"] 3 3 8 (1/2)).length =
      (["x", "y"] : List String).length :=
  ⟨by simp, by norm_num, by norm_num,
   (c1_one_scene_per_image ["x", "y"] 3 3 8 (1/2) (by simp) (by norm_num)
     (by norm_num)).1,
   (c1_one_scene_per_image ["x", "y"] 3 3 8 (1/2) (by simp) (by norm_num)
     (by norm_num)).2⟩

/-- Counterexample to C1 as stated: three images and one second of audio
(positive, list non-empty) produce only two scenes, because the 0.5s
duration clamp together with the early stop of the loop exhausts the audio
before the third image is reached. -/
theorem c1_counterexample :
    (calculate_scene_timing ["a", "b", "c"] 1 3 8 (1/2)).length ≠
      (["a", "b", "c"] : List String).length := by
  norm_num [calculate_scene_timing, sceneLoop]

/-- C2 (amended): when every image's equal share is at least the 0.5s
clamp (`audio_duration ≥ 0.5 * N`) and the transition duration is
non-negative, the planned durations plus the transition budget (counted
only when transitions remain enabled) sum exactly to `audio_duration`, and
the last scene ends exactly at `audio_duration`. -/
theorem c2_schedule_total_matches_audio (image_paths : List String)
    (audio_duration min_duration max_duration transition_duration : ℚ)
    (h1 : image_paths ≠ []) (h2 : 0 < audio_duration)
    (h3 : (image_paths.length : ℚ) * (1/2) ≤ audio_duration)
    (h4 : 0 ≤ transition_duration) :
    ((calculate_scene_timing image_paths audio_duration min_duration
        max_duration transition_duration).map Scene.duration).sum +
      (if transitionsKept image_paths audio_duration transition_duration then
        ((image_paths.length : ℚ) - 1) * transition_duration else 0) =
      audio_duration ∧
    ∃ sc, (calculate_scene_timing image_paths audio_duration min_duration
        max_duration transition_duration).getLast? = some sc ∧
      sc.start_time + sc.duration = audio_duration := by
  have hn1 : (1 : ℚ) ≤ (image_paths.length : ℚ) := by
    have : 1 ≤ image_paths.length := List.length_pos.mpr h1
    exact_mod_cast this
  obtain ⟨_, hsum, hlast⟩ := calculate_scene_timing_spec image_paths
    audio_duration min_duration max_duration transition_duration h1 h2 h3
  refine ⟨?_, hlast⟩
  rw [hsum]
  have hmax : max 0 (((image_paths.length : ℚ) - 1) * transition_duration) =
      ((image_paths.length : ℚ) - 1) * transition_duration :=
    max_eq_right (by nlinarith)
  split_ifs with hkept
  · rw [hmax]; ring
  · ring

/-- Witness for C2: two images, 3s audio, 0.5s transitions; transitions
are kept and the totals match exactly. -/
theorem c2_schedule_total_matches_audio_witness :
    (["x", "y"] : List String) ≠ [] ∧ (0:ℚ) < 3 ∧
    (((["x", "y"] : List String).length : ℚ)) * (1/2) ≤ 3 ∧
    (0:ℚ) ≤ 1/2 ∧
    ((calculate_scene_timing ["x", "y"] 3 3 8 (1/2)).map Scene.duration).sum +
      (if transitionsKept ["x", "y"] 3 (1/2) then
        (((["x", "y"] : List String).length : ℚ) - 1) * (1/2) else 0) = 3 :=
  ⟨by simp, by norm_num, by norm_num, by norm_num,
   (c2_schedule_total_matches_audio ["x", "y"] 3 3 8 (1/2) (by simp)
     (by norm_num) (by norm_num) (by norm_num)).1⟩

/-- Counterexample to C2 as stated: three images and 1.2s of audio (list
non-empty, audio positive) yield three scenes of 0.5s each, a total of
1.5s, which misses the 1.2s audio duration by 0.3s, far above the 0.01s
tolerance; the last scene ends at 1.5s, not at the audio duration. -/
theorem c2_counterexample :
    ¬(|((calculate_scene_timing ["a", "b", "c"] (6/5) 3 8 (1/2)).map
        Scene.duration).sum +
      (if transitionsKept ["a", "b", "c"] (6/5) (1/2) then
        (((["a", "b", "c"] : List String).length : ℚ) - 1) * (1/2) else 0) -
      6/5| ≤ 1/100) := by
  have hnk : ¬transitionsKept ["a", "b", "c"] (6/5) (1/2) := by
    simp only [transitionsKept]
    norm_num
  rw [if_neg hnk]
  norm_num [calculate_scene_timing, sceneLoop, transitionsKept, abs_le]


lemma correctEnd_le_audio (a st en : ℚ) (ns : Option ℚ) :
    correctEnd a st en ns ≤ a := by
  unfold correctEnd
  cases ns <;> simp only [] <;> split_ifs <;> linarith

lemma correctEnd_le_next (a st en t : ℚ) :
    correctEnd a st en (some t) ≤ t - 1/10 := by
  unfold correctEnd
  simp only []
  split_ifs <;> linarith

lemma correctEnd_cases (a st en : ℚ) (ns : Option ℚ) :
    1/2 ≤ correctEnd a st en ns - st ∨ correctEnd a st en ns = a ∨
    ∃ t, ns = some t ∧ correctEnd a st en ns = t - 1/10 := by
  unfold correctEnd
  cases ns with
  | none =>
    simp only []
    split_ifs with h1 h2
    · exact Or.inr (Or.inl rfl)
    · left; linarith
    · exact Or.inr (Or.inl rfl)
    · left; linarith
  | some t =>
    simp only []
    split_ifs <;>
      first
        | (right; left; rfl)
        | (left; linarith)
        | (right; right; exact ⟨t, rfl, rfl⟩)

lemma correctEnd_idem (a st en : ℚ) (ns : Option ℚ) :
    correctEnd a st (correctEnd a st en ns) ns = correctEnd a st en ns := by
  unfold correctEnd
  cases ns <;> simp only [] <;> split_ifs <;> linarith

lemma correctPass_nil (a : ℚ) : correctPass a [] = [] := rfl

lemma correctPass_cons (a : ℚ) (s : Seg) (rest : List Seg) :
    correctPass a (s :: rest) =
      if s.start_time < correctEnd a s.start_time s.end_time
          (rest.head?.map Seg.start_time) then
        ⟨s.start_time, correctEnd a s.start_time s.end_time
          (rest.head?.map Seg.start_time), s.text⟩ :: correctPass a rest
      else correctPass a rest := rfl

lemma correctAll_nil (a : ℚ) : correctAll a [] = [] := rfl

lemma correctAll_cons (a : ℚ) (s : Seg) (rest : List Seg) :
    correctAll a (s :: rest) =
      ⟨s.start_time, correctEnd a s.start_time s.end_time
        (rest.head?.map Seg.start_time), s.text⟩ :: correctAll a rest := rfl

lemma correctPass_eq_filter (a : ℚ) :
    ∀ l : List Seg, correctPass a l =
      (correctAll a l).filter (fun s => decide (s.start_time < s.end_time)) := by
  intro l
  induction l with
  | nil => rfl
  | cons s rest ih =>
    rw [correctPass_cons, correctAll_cons, List.filter_cons]
    by_cases h : s.start_time < correctEnd a s.start_time s.end_time
      (rest.head?.map Seg.start_time)
    · rw [if_pos h, ih]
      simp [h]
    · rw [if_neg h, ih]
      simp [h]

lemma correctAll_map_proj (a : ℚ) :
    ∀ l : List Seg, (correctAll a l).map segProj = l.map segProj := by
  intro l
  induction l with
  | nil => rfl
  | cons s rest ih => simp [correctAll_cons, segProj, ih]

lemma correctAll_length (a : ℚ) (l : List Seg) :
    (correctAll a l).length = l.length := by
  have h := congrArg List.length (correctAll_map_proj a l)
  simpa using h

lemma correctPass_sublist_proj (a : ℚ) (l : List Seg) :
    List.Sublist ((correctPass a l).map segProj) (l.map segProj) := by
  rw [correctPass_eq_filter, ← correctAll_map_proj a l]
  exact (List.filter_sublist _).map segProj

lemma correctPass_mem_proj (a : ℚ) (l : List Seg) {s : Seg}
    (hs : s ∈ correctPass a l) :
    ∃ x ∈ l, x.start_time = s.start_time ∧ x.text = s.text := by
  have h1 : segProj s ∈ (correctPass a l).map segProj :=
    List.mem_map_of_mem segProj hs
  have h2 := (correctPass_sublist_proj a l).subset h1
  obtain ⟨x, hx, hproj⟩ := List.mem_map.mp h2
  have := Prod.ext_iff.mp hproj
  exact ⟨x, hx, this.1, this.2⟩

lemma correctPass_mem_bounds (a : ℚ) :
    ∀ l : List Seg, ∀ s ∈ correctPass a l,
      s.start_time < s.end_time ∧ s.end_time ≤ a := by
  intro l
  induction l with
  | nil => intro s hs; simp [correctPass_nil] at hs
  | cons seg rest ih =>
    intro s hs
    rw [correctPass_cons] at hs
    split_ifs at hs with h
    · rcases List.mem_cons.mp hs with rfl | hmem
      · exact ⟨h, correctEnd_le_audio a seg.start_time seg.end_time _⟩
      · exact ih s hmem
    · exact ih s hs

lemma correctPass_mem_duration (a : ℚ) :
    ∀ l : List Seg, ∀ s ∈ correctPass a l,
      0 < s.end_time - s.start_time ∧
      (1/2 ≤ s.end_time - s.start_time ∨ s.end_time = a ∨
        ∃ x ∈ l, s.end_time = x.start_time - 1/10) := by
  intro l
  induction l with
  | nil => intro s hs; simp [correctPass_nil] at hs
  | cons seg rest ih =>
    intro s hs
    rw [correctPass_cons] at hs
    split_ifs at hs with h
    · rcases List.mem_cons.mp hs with rfl | hmem
      · refine ⟨by simpa using h, ?_⟩
        rcases correctEnd_cases a seg.start_time seg.end_time
          (rest.head?.map Seg.start_time) with h1 | h2 | ⟨t, ht, hE⟩
        · exact Or.inl (by simpa using h1)
        · exact Or.inr (Or.inl h2)
        · obtain ⟨r, hr, hrt⟩ := Option.map_eq_some'.mp ht
          refine Or.inr (Or.inr ⟨r, List.mem_cons_of_mem seg
            (List.mem_of_mem_head? hr), ?_⟩)
          simpa [← hrt] using hE
      · obtain ⟨h1, h2⟩ := ih s hmem
        refine ⟨h1, ?_⟩
        rcases h2 with h2 | h2 | ⟨x, hx, hxe⟩
        · exact Or.inl h2
        · exact Or.inr (Or.inl h2)
        · exact Or.inr (Or.inr ⟨x, List.mem_cons_of_mem seg hx, hxe⟩)
    · obtain ⟨h1, h2⟩ := ih s hs
      refine ⟨h1, ?_⟩
      rcases h2 with h2 | h2 | ⟨x, hx, hxe⟩
      · exact Or.inl h2
      · exact Or.inr (Or.inl h2)
      · exact Or.inr (Or.inr ⟨x, List.mem_cons_of_mem seg hx, hxe⟩)

lemma correctPass_chain (a : ℚ) :
    ∀ l : List Seg,
      l.Pairwise (fun x y => x.start_time ≤ y.start_time) →
      (correctPass a l).Chain'
        (fun x y => x.end_time ≤ y.start_time - 1/10) := by
  intro l
  induction l with
  | nil => intro _; simp [correctPass_nil]
  | cons seg rest ih =>
    intro hp
    rw [List.pairwise_cons] at hp
    obtain ⟨hhead, htail⟩ := hp
    rw [correctPass_cons]
    split_ifs with h
    · rw [List.chain'_cons']
      refine ⟨?_, ih htail⟩
      intro y hy
      have hymem : y ∈ correctPass a rest := List.mem_of_mem_head? hy
      obtain ⟨x, hx, hxs, _⟩ := correctPass_mem_proj a rest hymem
      cases rest with
      | nil => simp [correctPass_nil] at hymem
      | cons r rs =>
        have hhd : (r :: rs).head?.map Seg.start_time =
            some r.start_time := rfl
        have hE : correctEnd a seg.start_time seg.end_time
            ((r :: rs).head?.map Seg.start_time) ≤ r.start_time - 1/10 := by
          rw [hhd]
          exact correctEnd_le_next a seg.start_time seg.end_time r.start_time
        have hrx : r.start_time ≤ x.start_time := by
          rcases List.mem_cons.mp hx with rfl | hx'
          · exact le_refl _
          · exact (List.pairwise_cons.mp htail).1 x hx'
        have : x.start_time = y.start_time := hxs
        simp only []
        linarith
    · exact ih htail

lemma scaledSegments_length (segments : List Seg) (a : ℚ) :
    (scaledSegments segments a).length = segments.length := by
  simp only [scaledSegments]
  split_ifs <;> simp

lemma scaledSegments_pairwise (segments : List Seg) (a : ℚ) (ha : 0 ≤ a)
    (hp : segments.Pairwise (fun x y => x.start_time ≤ y.start_time)) :
    (scaledSegments segments a).Pairwise
      (fun x y => x.start_time ≤ y.start_time) := by
  simp only [scaledSegments]
  split_ifs with h
  · have hpos : 0 < lastEndTime segments :=
      lt_of_le_of_lt (by nlinarith) h
    have hfac : 0 ≤ a / lastEndTime segments := div_nonneg ha (le_of_lt hpos)
    rw [List.pairwise_map]
    exact hp.imp fun hxy => mul_le_mul_of_nonneg_right hxy hfac
  · exact hp

/-- C3 (amended): for segments ordered by non-decreasing start time and a
non-negative audio duration, every segment emitted by
`validate_and_correct_timing` satisfies `start_time < end_time ≤
audio_duration`, and consecutive emitted segments keep the 0.1s gap. -/
theorem c3_corrected_timing_invariants (segments : List Seg) (audio : ℚ)
    (hsorted : segments.Pairwise (fun x y => x.start_time ≤ y.start_time))
    (haudio : 0 ≤ audio) :
    (∀ s ∈ validate_and_correct_timing segments audio,
      s.start_time < s.end_time ∧ s.end_time ≤ audio) ∧
    (validate_and_correct_timing segments audio).Chain'
      (fun x y => x.end_time ≤ y.start_time - 1/10) := by
  unfold validate_and_correct_timing
  split_ifs with h
  · have hempty : segments = [] := List.isEmpty_iff.mp h
    subst hempty
    simp
  · exact ⟨correctPass_mem_bounds audio _,
      correctPass_chain audio _
        (scaledSegments_pairwise segments audio haudio hsorted)⟩

/-- Witness for C3: two sorted segments over five seconds of audio. -/
theorem c3_corrected_timing_invariants_witness :
    ([⟨0, 2, "a"⟩, ⟨3, 4, "b"⟩] : List Seg).Pairwise
      (fun x y => x.start_time ≤ y.start_time) ∧
    (0:ℚ) ≤ 5 ∧
    (∀ s ∈ validate_and_correct_timing [⟨0, 2, "a"⟩, ⟨3, 4, "b"⟩] 5,
      s.start_time < s.end_time ∧ s.end_time ≤ 5) ∧
    (validate_and_correct_timing [⟨0, 2, "a"⟩, ⟨3, 4, "b"⟩] 5).Chain'
      (fun x y => x.end_time ≤ y.start_time - 1/10) :=
  ⟨by norm_num [List.pairwise_cons], by norm_num,
   (c3_corrected_timing_invariants [⟨0, 2, "a"⟩, ⟨3, 4, "b"⟩] 5
     (by norm_num [List.pairwise_cons]) (by norm_num)).1,
   (c3_corrected_timing_invariants [⟨0, 2, "a"⟩, ⟨3, 4, "b"⟩] 5
     (by norm_num [List.pairwise_cons]) (by norm_num)).2⟩

/-- Counterexample to C3 as stated (over all inputs): on the unsorted
input `[(0,10),(5,5),(0.05,1)]` with 20s of audio, the middle segment is
dropped and the two emitted segments violate the 0.1s gap: the first ends
at 4.9 while the second starts at 0.05. -/
theorem c3_counterexample :
    ¬(validate_and_correct_timing
        [⟨0, 10, "a"⟩, ⟨5, 5, "b"⟩, ⟨1/20, 1, "c"⟩] 20).Chain'
      (fun x y => x.end_time ≤ y.start_time - 1/10) := by
  have heq : validate_and_correct_timing
      [⟨0, 10, "a"⟩, ⟨5, 5, "b"⟩, ⟨1/20, 1, "c"⟩] 20 =
      [⟨0, 49/10, "a"⟩, ⟨1/20, 1, "c"⟩] := by
    norm_num [validate_and_correct_timing, scaledSegments, lastEndTime,
      correctPass, correctEnd]
  rw [heq]
  intro hchain
  rw [List.chain'_cons'] at hchain
  have := hchain.1 ⟨1/20, 1, "c"⟩ (by simp)
  norm_num at this

/-- C9 (confirmed): the output of `validate_and_correct_timing` is an
order-preserving subsequence of the optionally scaled input, each emitted
segment keeping its start time and text; the output is never longer than
the input and an empty input yields an empty output. -/
theorem c9_output_subsequence_of_scaled_input (segments : List Seg)
    (audio : ℚ) :
    List.Sublist ((validate_and_correct_timing segments audio).map segProj)
      ((scaledSegments segments audio).map segProj) ∧
    (validate_and_correct_timing segments audio).length ≤ segments.length ∧
    validate_and_correct_timing [] audio = [] := by
  refine ⟨?_, ?_, rfl⟩
  · unfold validate_and_correct_timing
    split_ifs with h
    · have hempty : segments = [] := List.isEmpty_iff.mp h
      subst hempty
      simp
    · exact correctPass_sublist_proj audio _
  · unfold validate_and_correct_timing
    split_ifs with h
    · exact le_refl _
    · have h1 := (correctPass_sublist_proj audio
        (scaledSegments segments audio)).length_le
      rw [List.length_map, List.length_map] at h1
      rw [scaledSegments_length] at h1
      exact h1


/-- C7 (amended): every emitted segment has a strictly positive duration,
and its duration is at least 0.5s unless its end time was shrunk to open
the 0.1s gap before the next (scaled) input segment or clamped to the
audio duration; the 0.5s minimum is enforced only before those two
clamps. -/
theorem c7_minimum_duration_after_correction (segments : List Seg)
    (audio : ℚ) :
    ∀ s ∈ validate_and_correct_timing segments audio,
      0 < s.end_time - s.start_time ∧
      (1/2 ≤ s.end_time - s.start_time ∨ s.end_time = audio ∨
        ∃ x ∈ scaledSegments segments audio,
          s.end_time = x.start_time - 1/10) := by
  intro s hs
  unfold validate_and_correct_timing at hs
  split_ifs at hs with h
  · have hempty : segments = [] := List.isEmpty_iff.mp h
    subst hempty
    simp at hs
  · exact correctPass_mem_duration audio _ s hs

/-- Witness for C7: on `[(0,1),(0.3,5)]` with 10s of audio, the first
segment is emitted as `(0, 0.2)`; the theorem certifies its positive
duration and that its end equals the next start minus the 0.1s gap. -/
theorem c7_minimum_duration_after_correction_witness :
    (⟨0, 1/5, "a"⟩ : Seg) ∈
      validate_and_correct_timing [⟨0, 1, "a"⟩, ⟨3/10, 5, "b"⟩] 10 ∧
    (0 < (⟨0, 1/5, "a"⟩ : Seg).end_time - (⟨0, 1/5, "a"⟩ : Seg).start_time ∧
      (1/2 ≤ (⟨0, 1/5, "a"⟩ : Seg).end_time -
          (⟨0, 1/5, "a"⟩ : Seg).start_time ∨
        (⟨0, 1/5, "a"⟩ : Seg).end_time = 10 ∨
        ∃ x ∈ scaledSegments [⟨0, 1, "a"⟩, ⟨3/10, 5, "b"⟩] 10,
          (⟨0, 1/5, "a"⟩ : Seg).end_time = x.start_time - 1/10)) := by
  have heq : validate_and_correct_timing [⟨0, 1, "a"⟩, ⟨3/10, 5, "b"⟩] 10 =
      [⟨0, 1/5, "a"⟩, ⟨3/10, 5, "b"⟩] := by
    norm_num [validate_and_correct_timing, scaledSegments, lastEndTime,
      correctPass, correctEnd]
  have hmem : (⟨0, 1/5, "a"⟩ : Seg) ∈
      validate_and_correct_timing [⟨0, 1, "a"⟩, ⟨3/10, 5, "b"⟩] 10 := by
    rw [heq]; simp
  exact ⟨hmem,
    c7_minimum_duration_after_correction [⟨0, 1, "a"⟩, ⟨3/10, 5, "b"⟩] 10
      ⟨0, 1/5, "a"⟩ hmem⟩

/-- Counterexample to C7 as stated: on `[(0,1),(0.3,5)]` with 10s of
audio the first emitted segment is `(0, 0.2)`, whose duration 0.2s is
below the 0.5s minimum the claim asserts for every emitted segment. -/
theorem c7_counterexample :
    ¬(∀ s ∈ validate_and_correct_timing [⟨0, 1, "a"⟩, ⟨3/10, 5, "b"⟩] 10,
        1/2 ≤ s.end_time - s.start_time) := by
  have heq : validate_and_correct_timing [⟨0, 1, "a"⟩, ⟨3/10, 5, "b"⟩] 10 =
      [⟨0, 1/5, "a"⟩, ⟨3/10, 5, "b"⟩] := by
    norm_num [validate_and_correct_timing, scaledSegments, lastEndTime,
      correctPass, correctEnd]
  intro hall
  have := hall ⟨0, 1/5, "a"⟩ (by rw [heq]; simp)
  norm_num at this

lemma le_foldl_max (xs : List ℚ) : ∀ init : ℚ, init ≤ xs.foldl max init := by
  induction xs with
  | nil => intro init; exact le_refl _
  | cons x t ih =>
    intro init
    exact le_trans (le_max_left init x) (ih (max init x))

lemma mem_le_foldl_max (xs : List ℚ) :
    ∀ init : ℚ, ∀ x ∈ xs, x ≤ xs.foldl max init := by
  induction xs with
  | nil => intro init x hx; simp at hx
  | cons y t ih =>
    intro init x hx
    rcases List.mem_cons.mp hx with rfl | hx'
    · exact le_trans (le_max_right init x) (le_foldl_max t (max init x))
    · exact ih (max init y) x hx'

lemma le_lastEndTime (segments : List Seg) :
    ∀ x ∈ segments, x.end_time ≤ lastEndTime segments := by
  cases segments with
  | nil => intro x hx; simp at hx
  | cons s rest =>
    intro x hx
    rcases List.mem_cons.mp hx with rfl | hx'
    · exact le_foldl_max (rest.map Seg.end_time) x.end_time
    · exact mem_le_foldl_max (rest.map Seg.end_time) s.end_time x.end_time
        (List.mem_map_of_mem Seg.end_time hx')

/-- C8 (amended): the quantity the scaling step compares against
`audio * 1.1` (and divides by) is the maximum end time over all segments,
not the final segment's end time; and the forward pass never modifies a
start time: every emitted segment's start time is an input start time
multiplied by the scale factor (1 when no scaling happened), with the
text unchanged. -/
theorem c8_scaling_trigger_and_start_preservation (segments : List Seg)
    (audio : ℚ) :
    (∀ x ∈ segments, x.end_time ≤ lastEndTime segments) ∧
    (∀ s ∈ validate_and_correct_timing segments audio,
      ∃ x ∈ segments, s.text = x.text ∧
        s.start_time = x.start_time *
          (if lastEndTime segments > audio * (11/10) then
            audio / lastEndTime segments else 1)) := by
  refine ⟨le_lastEndTime segments, ?_⟩
  intro s hs
  unfold validate_and_correct_timing at hs
  split_ifs at hs with h
  · have hempty : segments = [] := List.isEmpty_iff.mp h
    subst hempty
    simp at hs
  · obtain ⟨y, hy, hys, hyt⟩ := correctPass_mem_proj audio _ hs
    simp only [scaledSegments] at hy
    split_ifs at hy with hscale
    · obtain ⟨x, hx, hxy⟩ := List.mem_map.mp hy
      refine ⟨x, hx, ?_, ?_⟩
      · rw [← hyt, ← hxy]
      · rw [if_pos hscale, ← hys, ← hxy]
    · refine ⟨y, hy, hyt.symm, ?_⟩
      rw [if_neg hscale, mul_one, hys]

/-- Witness for C8: a single segment, no scaling; the emitted segment
keeps its start time (factor 1). -/
theorem c8_scaling_trigger_and_start_preservation_witness :
    (∀ x ∈ ([⟨0, 2, "a"⟩] : List Seg),
      x.end_time ≤ lastEndTime [⟨0, 2, "a"⟩]) ∧
    (∃ x ∈ ([⟨0, 2, "a"⟩] : List Seg), (⟨0, 2, "a"⟩ : Seg).text = x.text ∧
      (⟨0, 2, "a"⟩ : Seg).start_time = x.start_time *
        (if lastEndTime [⟨0, 2, "a"⟩] > 10 * (11/10) then
          10 / lastEndTime [⟨0, 2, "a"⟩] else 1)) := by
  have heq : validate_and_correct_timing [⟨0, 2, "a"⟩] 10 =
      [⟨0, 2, "a"⟩] := by
    norm_num [validate_and_correct_timing, scaledSegments, lastEndTime,
      correctPass, correctEnd]
  refine ⟨(c8_scaling_trigger_and_start_preservation [⟨0, 2, "a"⟩] 10).1, ?_⟩
  exact (c8_scaling_trigger_and_start_preservation [⟨0, 2, "a"⟩] 10).2
    ⟨0, 2, "a"⟩ (by rw [heq]; simp)

/-- Counterexample to C8 as stated: on `[(0,100),(1,2)]` with 10s of
audio, the final segment ends at 2, well below `audio * 1.1 = 11`, yet the
code scales (it compares the maximum end time 100): the only emitted
segment starts at 0.1, which is no input start time, so a start time was
modified even though the claim says the scaling step must not run. -/
theorem c8_counterexample :
    (([⟨0, 100, "a"⟩, ⟨1, 2, "b"⟩] : List Seg).getLast?.map Seg.end_time =
      some 2) ∧
    ¬((2 : ℚ) > 10 * (11/10)) ∧
    validate_and_correct_timing [⟨0, 100, "a"⟩, ⟨1, 2, "b"⟩] 10 =
      [⟨1/10, 3/5, "b"⟩] ∧
    ∀ x ∈ ([⟨0, 100, "a"⟩, ⟨1, 2, "b"⟩] : List Seg),
      x.start_time ≠ (1/10 : ℚ) := by
  refine ⟨rfl, by norm_num, ?_, ?_⟩
  · norm_num [validate_and_correct_timing, scaledSegments, lastEndTime,
      correctPass, correctEnd]
  · intro x hx
    rcases List.mem_cons.mp hx with rfl | hx'
    · norm_num
    · rcases List.mem_cons.mp hx' with rfl | hx''
      · norm_num
      · simp at hx''


lemma filter_eq_self_of_length_eq {α : Type} (p : α → Bool) :
    ∀ l : List α, (l.filter p).length = l.length → l.filter p = l := by
  intro l
  induction l with
  | nil => intro _; rfl
  | cons a t ih =>
    intro h
    rw [List.filter_cons] at h ⊢
    by_cases hpa : p a = true
    · rw [if_pos hpa] at h ⊢
      rw [List.length_cons, List.length_cons] at h
      rw [ih (Nat.succ_injective h)]
    · rw [if_neg hpa] at h
      rw [List.length_cons] at h
      have hle := List.length_filter_le p t
      omega

lemma correctAll_head?_start (a : ℚ) (l : List Seg) :
    (correctAll a l).head?.map Seg.start_time =
      l.head?.map Seg.start_time := by
  cases l with
  | nil => rfl
  | cons s rest => rfl

lemma correctAll_idem (a : ℚ) : ∀ l : List Seg,
    correctAll a (correctAll a l) = correctAll a l := by
  intro l
  induction l with
  | nil => rfl
  | cons s rest ih =>
    simp only [correctAll_cons, correctAll_head?_start, correctEnd_idem, ih]

lemma correctAll_end_le (a : ℚ) :
    ∀ l : List Seg, ∀ s ∈ correctAll a l, s.end_time ≤ a := by
  intro l
  induction l with
  | nil => intro s hs; simp [correctAll_nil] at hs
  | cons seg rest ih =>
    intro s hs
    rw [correctAll_cons] at hs
    rcases List.mem_cons.mp hs with rfl | hmem
    · exact correctEnd_le_audio a seg.start_time seg.end_time _
    · exact ih s hmem

lemma foldl_max_le (a : ℚ) :
    ∀ (xs : List ℚ) (init : ℚ), init ≤ a → (∀ x ∈ xs, x ≤ a) →
      xs.foldl max init ≤ a := by
  intro xs
  induction xs with
  | nil => intro init h _; exact h
  | cons x t ih =>
    intro init hinit hall
    exact ih (max init x) (max_le hinit (hall x (List.mem_cons_self x t)))
      fun y hy => hall y (List.mem_cons_of_mem x hy)

lemma lastEndTime_le (l : List Seg) (a : ℚ)
    (h : ∀ s ∈ l, s.end_time ≤ a) : l ≠ [] → lastEndTime l ≤ a := by
  cases l with
  | nil => intro hne; exact absurd rfl hne
  | cons s rest =>
    intro _
    unfold lastEndTime
    exact foldl_max_le a (rest.map Seg.end_time) s.end_time
      (h s (List.mem_cons_self s rest))
      fun y hy => by
        obtain ⟨x, hx, hxy⟩ := List.mem_map.mp hy
        exact hxy ▸ h x (List.mem_cons_of_mem s hx)

/-- C4 (amended): `validate_and_correct_timing` is idempotent whenever the
audio duration is non-negative and its first application drops no segment
(the output is as long as the input).  When a segment is dropped, the gap
shrink computed against the dropped neighbour is not reproduced by the
second application, which can differ (see the counterexample). -/
theorem c4_correction_idempotent_when_nothing_dropped (segments : List Seg)
    (audio : ℚ) (haudio : 0 ≤ audio)
    (hlen : (validate_and_correct_timing segments audio).length =
      segments.length) :
    validate_and_correct_timing
      (validate_and_correct_timing segments audio) audio =
    validate_and_correct_timing segments audio := by
  by_cases hemp : segments.isEmpty
  · have hnil : segments = [] := List.isEmpty_iff.mp hemp
    subst hnil
    rfl
  · have hsegne : segments ≠ [] := fun h => by
      rw [h] at hemp; exact hemp rfl
    have hval : validate_and_correct_timing segments audio =
        correctPass audio (scaledSegments segments audio) := by
      unfold validate_and_correct_timing
      rw [if_neg hemp]
    set S := scaledSegments segments audio with hS
    have hSlen : S.length = segments.length :=
      scaledSegments_length segments audio
    rw [hval] at hlen
    have hplen : (correctPass audio S).length = S.length := by
      rw [hlen, hSlen]
    have hlenf : ((correctAll audio S).filter
        (fun s => decide (s.start_time < s.end_time))).length =
        (correctAll audio S).length := by
      rw [← correctPass_eq_filter audio S, correctAll_length, hplen]
    have hfilter : (correctAll audio S).filter
        (fun s => decide (s.start_time < s.end_time)) = correctAll audio S :=
      filter_eq_self_of_length_eq _ _ hlenf
    have hV : correctPass audio S = correctAll audio S := by
      rw [correctPass_eq_filter, hfilter]
    have hVne : correctPass audio S ≠ [] := by
      intro hnil
      rw [hnil] at hplen
      have h0 : segments.length = 0 := by
        rw [← hSlen, ← hplen]
        rfl
      exact hsegne (List.length_eq_zero.mp h0)
    rw [hval]
    unfold validate_and_correct_timing
    rw [if_neg (fun h => hVne (List.isEmpty_iff.mp h))]
    have hle : lastEndTime (correctPass audio S) ≤ audio := by
      refine lastEndTime_le _ _ ?_ hVne
      intro s hs
      rw [hV] at hs
      exact correctAll_end_le audio S s hs
    have hnoscale : ¬(lastEndTime (correctPass audio S) > audio * (11/10)) := by
      push_neg
      nlinarith
    have hscaled : scaledSegments (correctPass audio S) audio =
        correctPass audio S := by
      simp only [scaledSegments]
      rw [if_neg hnoscale]
    rw [hscaled, hV]
    rw [correctPass_eq_filter, correctAll_idem, hfilter]

/-- Witness for C4: one segment, nothing dropped, and the second
application returns the first application's output unchanged. -/
theorem c4_correction_idempotent_witness :
    (0:ℚ) ≤ 10 ∧
    (validate_and_correct_timing [⟨0, 2, "a"⟩] 10).length =
      ([⟨0, 2, "a"⟩] : List Seg).length ∧
    validate_and_correct_timing
      (validate_and_correct_timing [⟨0, 2, "a"⟩] 10) 10 =
    validate_and_correct_timing [⟨0, 2, "a"⟩] 10 :=
  ⟨by norm_num,
   by norm_num [validate_and_correct_timing, scaledSegments, lastEndTime,
     correctPass, correctEnd],
   c4_correction_idempotent_when_nothing_dropped [⟨0, 2, "a"⟩] 10
     (by norm_num)
     (by norm_num [validate_and_correct_timing, scaledSegments, lastEndTime,
       correctPass, correctEnd])⟩

/-- Counterexample to C4 as stated: on `[(9.5,10),(10,10.5)]` with 10s of
audio the second segment is dropped and the first is gap-shrunk to end at
9.9; reapplying the correction extends that end to 10 (the minimum
duration now wins and the dropped neighbour no longer constrains it), so
the second application differs from the first. -/
theorem c4_counterexample :
    validate_and_correct_timing
      (validate_and_correct_timing [⟨19/2, 10, "a"⟩, ⟨10, 21/2, "b"⟩] 10)
      10 ≠
    validate_and_correct_timing [⟨19/2, 10, "a"⟩, ⟨10, 21/2, "b"⟩] 10 := by
  have h1 : validate_and_correct_timing
      [⟨19/2, 10, "a"⟩, ⟨10, 21/2, "b"⟩] 10 = [⟨19/2, 99/10, "a"⟩] := by
    norm_num [validate_and_correct_timing, scaledSegments, lastEndTime,
      correctPass, correctEnd]
  have h2 : validate_and_correct_timing [⟨19/2, 99/10, "a"⟩] 10 =
      [⟨19/2, 10, "a"⟩] := by
    norm_num [validate_and_correct_timing, scaledSegments, lastEndTime,
      correctPass, correctEnd]
  rw [h1, h2]
  intro h
  simp only [List.cons.injEq, Seg.mk.injEq, and_true, true_and] at h
  norm_num at h


lemma mem_of_getLast?_eq_some {α : Type} {l : List α} {x : α}
    (h : l.getLast? = some x) : x ∈ l := by
  have hx : x ∈ l.getLast? := by rw [h]; exact Option.mem_def.mpr rfl
  obtain ⟨hne, hx2⟩ := List.mem_getLast?_eq_getLast hx
  rw [hx2]
  exact List.getLast_mem hne

lemma sizeTier_pos (env : ProbeEnv) :
    ∃ v : ℚ, sizeTier env = Except.ok v ∧ 0 < v := by
  unfold sizeTier
  cases hfs : env.file_size with
  | none => exact ⟨30, rfl, by norm_num⟩
  | some sz =>
    refine ⟨max 10 (min ((sz : ℚ) / (128 * 1024 / 8)) 300), rfl, ?_⟩
    have h10 : (10:ℚ) ≤ max 10 (min ((sz : ℚ) / (128 * 1024 / 8)) 300) :=
      le_max_left _ _
    linarith

lemma fullDecodeTier_ok (env : ProbeEnv) (h4 : env.ffmpeg_exe4 = true)
    (hnu : env.full_run ≠ RunOutcome.uncaught)
    (hpos : ∀ d ts, env.full_run = RunOutcome.completed (d, ts) →
      (∀ x ∈ d, 0 < hmsToSeconds x) ∧ ∀ x ∈ ts, 0 < hmsToSeconds x) :
    ∃ v : ℚ, fullDecodeTier env = Except.ok v ∧ 0 < v := by
  have htime : ∀ (ts : List (ℕ × ℕ × ℚ)),
      (∀ x ∈ ts, 0 < hmsToSeconds x) →
      ∃ v : ℚ, timePatternTier ts env = Except.ok v ∧ 0 < v := by
    intro ts hts
    unfold timePatternTier
    cases hl : ts.getLast? with
    | some x =>
      exact ⟨hmsToSeconds x, rfl, hts x (mem_of_getLast?_eq_some hl)⟩
    | none => exact sizeTier_pos env
  unfold fullDecodeTier
  rw [if_neg (by simp [h4])]
  cases hfr : env.full_run with
  | completed p =>
    obtain ⟨d, ts⟩ := p
    obtain ⟨hd, hts⟩ := hpos d ts hfr
    cases d with
    | some x =>
      exact ⟨hmsToSeconds x, rfl, hd x (Option.mem_def.mpr rfl)⟩
    | none => exact htime ts hts
  | caught => exact sizeTier_pos env
  | uncaught => exact absurd hfr hnu

lemma infoTier_ok (env : ProbeEnv) (h3 : env.ffmpeg_exe3 = true)
    (h4 : env.ffmpeg_exe4 = true)
    (hinu : env.info_run ≠ RunOutcome.uncaught)
    (hfnu : env.full_run ≠ RunOutcome.uncaught)
    (hipos : ∀ x, env.info_run = RunOutcome.completed (some x) →
      0 < hmsToSeconds x)
    (hfpos : ∀ d ts, env.full_run = RunOutcome.completed (d, ts) →
      (∀ x ∈ d, 0 < hmsToSeconds x) ∧ ∀ x ∈ ts, 0 < hmsToSeconds x) :
    ∃ v : ℚ, infoTier env = Except.ok v ∧ 0 < v := by
  unfold infoTier
  rw [if_neg (by simp [h3])]
  cases hir : env.info_run with
  | completed d =>
    cases d with
    | some x => exact ⟨hmsToSeconds x, rfl, hipos x hir⟩
    | none => exact fullDecodeTier_ok env h4 hfnu hfpos
  | caught => exact fullDecodeTier_ok env h4 hfnu hfpos
  | uncaught => exact absurd hir hinu

/-- C5 (amended): `get_audio_duration` returns exactly 30.0 for a
nonexistent file, before any tool is touched.  For an existing file it
returns normally — without raising — provided every
`imageio_ffmpeg.get_ffmpeg_exe()` call succeeds (those calls sit outside
every `try`) and every tool invocation failure is of an exception type
listed in its tier's `except` clause; under those conditions the result
is strictly positive whenever every successfully parsed tool output is
strictly positive (the file-size tier is clamped to [10, 300] and the
final fallback is 30.0, both unconditionally positive).  A missing
ffmpeg binary or an uncaught launch failure makes the function raise,
and a parsed value of zero or less is returned unchecked. -/
theorem c5_probe_missing_file_and_guarded_positivity (env : ProbeEnv) :
    (env.file_exists = false → get_audio_duration env = Except.ok 30) ∧
    (env.ffmpeg_exe1 = true → env.ffmpeg_exe2 = true →
     env.ffmpeg_exe3 = true → env.ffmpeg_exe4 = true →
     env.ffprobe_run ≠ RunOutcome.uncaught →
     env.info_run ≠ RunOutcome.uncaught →
     env.full_run ≠ RunOutcome.uncaught →
     (∀ q : ℚ, env.ffprobe_run = RunOutcome.completed q → 0 < q) →
     (∀ x, env.info_run = RunOutcome.completed (some x) →
       0 < hmsToSeconds x) →
     (∀ d ts, env.full_run = RunOutcome.completed (d, ts) →
       (∀ x ∈ d, 0 < hmsToSeconds x) ∧ ∀ x ∈ ts, 0 < hmsToSeconds x) →
     ∃ v : ℚ, get_audio_duration env = Except.ok v ∧ 0 < v) := by
  constructor
  · intro h
    unfold get_audio_duration
    rw [if_pos h]
  · intro h1 h2 h3 h4 hpnu hinu hfnu hppos hipos hfpos
    have hinfo : ∃ v : ℚ, infoTier env = Except.ok v ∧ 0 < v :=
      infoTier_ok env h3 h4 hinu hfnu hipos hfpos
    by_cases hex : env.file_exists = false
    · unfold get_audio_duration
      rw [if_pos hex]
      exact ⟨30, rfl, by norm_num⟩
    · unfold get_audio_duration
      rw [if_neg hex]
      rw [if_neg (by simp [h1])]
      rw [if_neg (by simp [h2])]
      split_ifs with hfound
      · cases hpr : env.ffprobe_run with
        | completed q => exact ⟨q, rfl, hppos q hpr⟩
        | caught => exact hinfo
        | uncaught => exact absurd hpr hpnu
      · exact hinfo

/-- Witness for C5: a missing file returns 30; a world where the binary
resolves, ffprobe parses 5.0, and the other tiers fail with caught
exception types returns a positive duration without raising. -/
theorem c5_probe_missing_file_and_guarded_positivity_witness :
    get_audio_duration ⟨false, true, true, true, true, true, false,
      RunOutcome.caught, RunOutcome.caught, RunOutcome.caught, none⟩ =
      Except.ok 30 ∧
    ∃ v : ℚ, get_audio_duration ⟨true, true, true, true, true, true, false,
      RunOutcome.completed 5, RunOutcome.caught, RunOutcome.caught, none⟩ =
      Except.ok v ∧ 0 < v :=
  ⟨(c5_probe_missing_file_and_guarded_positivity
      ⟨false, true, true, true, true, true, false, RunOutcome.caught,
        RunOutcome.caught, RunOutcome.caught, none⟩).1 rfl,
   (c5_probe_missing_file_and_guarded_positivity
      ⟨true, true, true, true, true, true, false, RunOutcome.completed 5,
        RunOutcome.caught, RunOutcome.caught, none⟩).2 rfl rfl rfl rfl
     (by simp) (by simp) (by simp)
     (by intro q hq; simp only [RunOutcome.completed.injEq] at hq;
         rw [← hq]; norm_num)
     (by intro x hx; simp at hx)
     (by intro d ts hdts; simp at hdts)⟩

/-- Counterexample to C5 as stated: with an existing file, an ffprobe
invocation whose stdout parses as 0.0 makes `get_audio_duration` return
0, which is not strictly positive; and a failing
`imageio_ffmpeg.get_ffmpeg_exe()` call — made outside every `try` at
`media_utils.py` line 515 — makes the function raise instead of
returning any value, so it neither "never raises" nor "always returns a
strictly positive number". -/
theorem c5_counterexample :
    get_audio_duration ⟨true, true, true, true, true, true, false,
      RunOutcome.completed 0, RunOutcome.caught, RunOutcome.caught, none⟩ =
      Except.ok 0 ∧
    ¬(0 < (0 : ℚ)) ∧
    get_audio_duration ⟨true, false, true, true, true, true, false,
      RunOutcome.caught, RunOutcome.caught, RunOutcome.caught, none⟩ =
      Except.error "RuntimeError raised by get_ffmpeg_exe" := by
  refine ⟨?_, by norm_num, ?_⟩
  · norm_num [get_audio_duration]
  · norm_num [get_audio_duration]

lemma sceneLoop_cons_isEmpty (a s t : ℚ) (img : String) (rest : List String)
    (c : ℚ) : (sceneLoop a s t (img :: rest) c).isEmpty = false := rfl

lemma calculate_scene_timing_cons_isEmpty (image : String)
    (rest : List String) (a mn mx td : ℚ) (ha : 0 < a) :
    (calculate_scene_timing (image :: rest) a mn mx td).isEmpty = false := by
  simp only [calculate_scene_timing]
  rw [if_neg (calculate_scene_timing_guard_false (image :: rest) a
    (List.cons_ne_nil image rest) ha)]
  split_ifs <;> exact sceneLoop_cons_isEmpty _ _ _ _ _ _

lemma create_video_with_transitions_falls_back (env : RenderEnv)
    (scene_plan : List Scene) (audio_path output_path : String)
    (h : env.crossfade_ok = false) :
    create_video_with_transitions env scene_plan audio_path output_path =
      create_video_simple_concat env scene_plan audio_path output_path := by
  unfold create_video_with_transitions
  rw [if_neg (by rw [h]; exact Bool.false_ne_true)]

lemma create_video_simple_concat_zero_clips (env : RenderEnv)
    (scene_plan : List Scene) (audio_path output_path : String)
    (h : sceneVideos env scene_plan = []) :
    create_video_simple_concat env scene_plan audio_path output_path =
      Except.error "No scene videos were created successfully" := by
  unfold create_video_simple_concat
  rw [if_pos (by rw [h]; rfl)]

lemma create_video_simple_concat_error (env : RenderEnv)
    (scene_plan : List Scene) (audio_path output_path : String)
    (h : env.concat_ok = false) :
    ∃ msg, create_video_simple_concat env scene_plan audio_path output_path =
      Except.error msg := by
  unfold create_video_simple_concat
  split_ifs with h1 h2
  · exact ⟨_, rfl⟩
  · exact absurd (h ▸ h2) Bool.false_ne_true
  · exact ⟨_, rfl⟩

lemma create_multi_scene_video_falls_back_single (env : RenderEnv)
    (image : String) (rest : List String) (audio_path output_path : String)
    (min_scene_duration max_scene_duration transition_duration : ℚ)
    (enable_transitions : Bool)
    (hcf : env.crossfade_ok = false) (hcc : env.concat_ok = false)
    (ha : 0 < env.audio_duration) :
    create_multi_scene_video env (image :: rest) audio_path output_path
      min_scene_duration max_scene_duration transition_duration
      enable_transitions = create_video env image audio_path output_path := by
  simp only [create_multi_scene_video]
  set plan := calculate_scene_timing (image :: rest) env.audio_duration
    min_scene_duration max_scene_duration
    (if enable_transitions then transition_duration else 0) with hplan
  rw [if_neg (not_le.mpr ha)]
  rw [if_neg (by
    rw [hplan, calculate_scene_timing_cons_isEmpty image rest
      env.audio_duration min_scene_duration max_scene_duration _ ha]
    exact Bool.false_ne_true)]
  have herr : ∃ msg,
      (if enable_transitions ∧ plan.length > 1 then
        create_video_with_transitions env plan audio_path output_path
      else
        create_video_simple_concat env plan audio_path output_path) =
      Except.error msg := by
    split_ifs with hroute
    · rw [create_video_with_transitions_falls_back env plan audio_path
        output_path hcf]
      exact create_video_simple_concat_error env plan audio_path output_path hcc
    · exact create_video_simple_concat_error env plan audio_path output_path hcc
  obtain ⟨msg, hmsg⟩ := herr
  rw [hmsg]

lemma create_multi_scene_video_total_failure (env : RenderEnv)
    (image_paths : List String) (audio_path output_path : String)
    (min_scene_duration max_scene_duration transition_duration : ℚ)
    (enable_transitions : Bool)
    (hcf : env.crossfade_ok = false) (hcc : env.concat_ok = false)
    (hsingle : env.single_ok = false) :
    create_multi_scene_video env image_paths audio_path output_path
      min_scene_duration max_scene_duration transition_duration
      enable_transitions = none := by
  have hcv : ∀ img : String,
      create_video env img audio_path output_path = none := by
    intro img
    unfold create_video
    rw [if_neg (by rw [hsingle]; exact Bool.false_ne_true)]
  cases image_paths with
  | nil =>
    simp only [create_multi_scene_video]
    by_cases ha : env.audio_duration ≤ 0
    · rw [if_pos ha]
    · rw [if_neg ha]
      rw [if_pos (by simp [calculate_scene_timing])]
  | cons image rest =>
    by_cases ha : 0 < env.audio_duration
    · rw [create_multi_scene_video_falls_back_single env image rest
        audio_path output_path min_scene_duration max_scene_duration
        transition_duration enable_transitions hcf hcc ha]
      exact hcv image
    · simp only [create_multi_scene_video]
      rw [if_pos (not_lt.mp ha)]
      exact hcv image

/-- C6 (confirmed): the renderer escalation chain.  A crossfade failure
falls back to simple concatenation; concatenation with zero produced
scene clips fails with an error; when both strategies fail the
multi-scene driver falls back to a single-scene render on the first
image alone; and when the single-scene render also fails the driver
returns `none` — never a partial result. -/
theorem c6_renderer_fallback_chain :
    (∀ (env : RenderEnv) (scene_plan : List Scene)
        (audio_path output_path : String),
      env.crossfade_ok = false →
      create_video_with_transitions env scene_plan audio_path output_path =
        create_video_simple_concat env scene_plan audio_path output_path) ∧
    (∀ (env : RenderEnv) (scene_plan : List Scene)
        (audio_path output_path : String),
      sceneVideos env scene_plan = [] →
      create_video_simple_concat env scene_plan audio_path output_path =
        Except.error "No scene videos were created successfully") ∧
    (∀ (env : RenderEnv) (image : String) (rest : List String)
        (audio_path output_path : String)
        (min_scene_duration max_scene_duration transition_duration : ℚ)
        (enable_transitions : Bool),
      env.crossfade_ok = false → env.concat_ok = false →
      0 < env.audio_duration →
      create_multi_scene_video env (image :: rest) audio_path output_path
        min_scene_duration max_scene_duration transition_duration
        enable_transitions = create_video env image audio_path output_path) ∧
    (∀ (env : RenderEnv) (image_paths : List String)
        (audio_path output_path : String)
        (min_scene_duration max_scene_duration transition_duration : ℚ)
        (enable_transitions : Bool),
      env.crossfade_ok = false → env.concat_ok = false →
      env.single_ok = false →
      create_multi_scene_video env image_paths audio_path output_path
        min_scene_duration max_scene_duration transition_duration
        enable_transitions = none) :=
  ⟨fun env plan audio out h =>
      create_video_with_transitions_falls_back env plan audio out h,
   fun env plan audio out h =>
      create_video_simple_concat_zero_clips env plan audio out h,
   fun env image rest audio out mn mx td en hcf hcc ha =>
      create_multi_scene_video_falls_back_single env image rest audio out
        mn mx td en hcf hcc ha,
   fun env imgs audio out mn mx td en hcf hcc hs =>
      create_multi_scene_video_total_failure env imgs audio out mn mx td en
        hcf hcc hs⟩

/-- Witness for C6: a world where every ffmpeg invocation fails; the
fallback chain degrades to the single-image renderer and finally to no
result. -/
theorem c6_renderer_fallback_chain_witness :
    (create_video_with_transitions
        ⟨1, false, fun _ => false, fun _ => false, false, false, false⟩
        [] "a.mp3" "o.mp4" =
      create_video_simple_concat
        ⟨1, false, fun _ => false, fun _ => false, false, false, false⟩
        [] "a.mp3" "o.mp4") ∧
    (create_video_simple_concat
        ⟨1, false, fun _ => false, fun _ => false, false, false, false⟩
        [] "a.mp3" "o.mp4" =
      Except.error "No scene videos were created successfully") ∧
    (create_multi_scene_video
        ⟨1, false, fun _ => false, fun _ => false, false, false, false⟩
        ["i.png"] "a.mp3" "o.mp4" 3 8 (1/2) true =
      create_video
        ⟨1, false, fun _ => false, fun _ => false, false, false, false⟩
        "i.png" "a.mp3" "o.mp4") ∧
    (create_multi_scene_video
        ⟨1, false, fun _ => false, fun _ => false, false, false, false⟩
        ["i.png"] "a.mp3" "o.mp4" 3 8 (1/2) true = none) :=
  ⟨c6_renderer_fallback_chain.1
      ⟨1, false, fun _ => false, fun _ => false, false, false, false⟩
      [] "a.mp3" "o.mp4" rfl,
   c6_renderer_fallback_chain.2.1
      ⟨1, false, fun _ => false, fun _ => false, false, false, false⟩
      [] "a.mp3" "o.mp4" rfl,
   c6_renderer_fallback_chain.2.2.1
      ⟨1, false, fun _ => false, fun _ => false, false, false, false⟩
      "i.png" [] "a.mp3" "o.mp4" 3 8 (1/2) true rfl rfl (by norm_num),
   c6_renderer_fallback_chain.2.2.2
      ⟨1, false, fun _ => false, fun _ => false, false, false, false⟩
      ["i.png"] "a.mp3" "o.mp4" 3 8 (1/2) true rfl rfl rfl⟩


lemma floor_div_eq (t d : ℚ) (dz : ℤ) (hc : d = (dz : ℚ)) (hd : 0 < dz) :
    ⌊t / d⌋ = ⌊t⌋ / dz := by
  subst hc
  have hdq : (0:ℚ) < (dz:ℚ) := by exact_mod_cast hd
  have h1 := Int.ediv_add_emod ⌊t⌋ dz
  have h2 := Int.emod_nonneg ⌊t⌋ (by omega : dz ≠ 0)
  have h3 := Int.emod_lt_of_pos ⌊t⌋ hd
  have h4 := Int.floor_le t
  have h5 := Int.lt_floor_add_one t
  have hexp : (⌊t⌋ / dz + 1) * dz = dz * (⌊t⌋ / dz) + dz := by ring
  have hcm : (⌊t⌋ / dz) * dz = dz * (⌊t⌋ / dz) := mul_comm _ _
  have hz1 : (⌊t⌋ / dz) * dz ≤ ⌊t⌋ := by linarith
  have hz2 : ⌊t⌋ + 1 ≤ (⌊t⌋ / dz + 1) * dz := by rw [hexp]; linarith
  rw [Int.floor_eq_iff]
  constructor
  · rw [le_div_iff₀ hdq]
    have hq : (((⌊t⌋ / dz) * dz : ℤ) : ℚ) ≤ ((⌊t⌋ : ℤ) : ℚ) := by
      exact_mod_cast hz1
    push_cast at hq
    linarith
  · rw [div_lt_iff₀ hdq]
    have hq : ((⌊t⌋ + 1 : ℤ) : ℚ) ≤ (((⌊t⌋ / dz + 1) * dz : ℤ) : ℚ) := by
      exact_mod_cast hz2
    push_cast at hq
    linarith

lemma floor_pymod_eq (t d : ℚ) (dz : ℤ) (hc : d = (dz : ℚ)) (hd : 0 < dz) :
    ⌊pymod t d⌋ = ⌊t⌋ % dz := by
  unfold pymod
  rw [floor_div_eq t d dz hc hd]
  subst hc
  have hcast : (dz:ℚ) * ((⌊t⌋ / dz : ℤ) : ℚ) =
      (((dz * (⌊t⌋ / dz) : ℤ)) : ℚ) := by
    push_cast
    ring
  rw [hcast, Int.floor_sub_int, Int.emod_def]

lemma floor_pymod_one_mul (t : ℚ) :
    ⌊pymod t 1 * 1000⌋ = ⌊t * 1000⌋ - 1000 * ⌊t⌋ := by
  unfold pymod
  rw [div_one]
  have hcast : (t - 1 * ⌊t⌋) * 1000 = t * 1000 - ((1000 * ⌊t⌋ : ℤ) : ℚ) := by
    push_cast
    ring
  rw [hcast, Int.floor_sub_int]

/-- C10 (confirmed): serializing a non-negative time below 100 hours with
`format_srt_time` and parsing it back with `parse_timestamp` truncates it
to whole milliseconds; in particular a time that is a whole number of
milliseconds round-trips exactly. -/
theorem c10_srt_time_round_trip (t : ℚ) (h1 : 0 ≤ t) (h2 : t < 360000) :
    parse_timestamp (format_srt_time t) = (⌊t * 1000⌋ : ℚ) / 1000 ∧
    ((⌊t * 1000⌋ : ℚ) = t * 1000 →
      parse_timestamp (format_srt_time t) = t) := by
  have hmain : parse_timestamp (format_srt_time t) =
      (⌊t * 1000⌋ : ℚ) / 1000 := by
    simp only [parse_timestamp, format_srt_time]
    rw [floor_div_eq t 3600 3600 (by norm_num) (by norm_num)]
    rw [floor_div_eq (pymod t 3600) 60 60 (by norm_num) (by norm_num)]
    rw [floor_pymod_eq t 3600 3600 (by norm_num) (by norm_num)]
    rw [floor_pymod_eq t 60 60 (by norm_num) (by norm_num)]
    rw [floor_pymod_one_mul t]
    have key : (⌊t⌋ / 3600) * 3600 + ((⌊t⌋ % 3600) / 60) * 60 + ⌊t⌋ % 60 =
        ⌊t⌋ := by omega
    have keyq : ((⌊t⌋ / 3600 : ℤ) : ℚ) * 3600 +
        (((⌊t⌋ % 3600) / 60 : ℤ) : ℚ) * 60 + ((⌊t⌋ % 60 : ℤ) : ℚ) =
        ((⌊t⌋ : ℤ) : ℚ) := by
      exact_mod_cast congrArg (fun z : ℤ => (z : ℚ)) key
    push_cast at keyq ⊢
    linarith
  refine ⟨hmain, fun hint => ?_⟩
  rw [hmain, hint]
  field_simp

/-- Witness for C10: one hour, one minute and half a second round-trips
exactly. -/
theorem c10_srt_time_round_trip_witness :
    (0 ≤ (7261/2 : ℚ)) ∧ ((7261/2 : ℚ) < 360000) ∧
    parse_timestamp (format_srt_time (7261/2 : ℚ)) =
      (⌊(7261/2 : ℚ) * 1000⌋ : ℚ) / 1000 ∧
    parse_timestamp (format_srt_time (7261/2 : ℚ)) = 7261/2 := by
  have hfl : (⌊(7261/2 : ℚ) * 1000⌋ : ℚ) = (7261/2 : ℚ) * 1000 := by
    rw [show (7261/2 : ℚ) * 1000 = ((3630500 : ℤ) : ℚ) by norm_num]
    rw [Int.floor_intCast]
  exact ⟨by norm_num, by norm_num,
    (c10_srt_time_round_trip (7261/2) (by norm_num) (by norm_num)).1,
    (c10_srt_time_round_trip (7261/2) (by norm_num) (by norm_num)).2 hfl⟩
end VideoCreator
